import Mathlib

/-!
Verification of the `elysiajs-cdn-cache` repository: a shallow embedding of
its `CacheControl` directive-set component (`src/CacheControl.ts`) and of both
`CDNCache` header-controller variants (the per-header variant and the legacy
variant in `src/CDNCache.ts`), together with proofs of the specified
properties.

Strings are Lean `String`s; the JavaScript string builtins the source relies
on (`split`, `trim`, `toLowerCase`, `parseInt`, number-to-string) are modelled
explicitly below, restricted to ASCII text (header values are ASCII; the
ECMA definitions coincide with these models on ASCII input).  JavaScript
numbers are modelled as integers (`Int`): every number the source stores in a
directive comes from `parseInt` or from a typed integer-seconds parameter.
All definitions are total, mirroring the fact that the source never throws.
-/

namespace CdnCacheSpec

/-- ASCII whitespace as recognised by JavaScript `trim` and `parseInt`
(the ECMA WhiteSpace/LineTerminator sets restricted to ASCII). -/
def isJsWs (c : Char) : Bool :=
  c = ' ' || c = '\t' || c = '\n' || c = '\r' || c = '\x0b' || c = '\x0c'

/-- JavaScript `toLowerCase` on one character (ASCII range). -/
def jsLowerChar (c : Char) : Char :=
  if 'A' ≤ c ∧ c ≤ 'Z' then Char.ofNat (c.toNat + 32) else c

/-- JavaScript `String.prototype.split` with a one-character separator:
maximal splitting, keeping empty segments (`"".split(",") = [""]`). -/
def splitChar (sep : Char) : List Char → List (List Char)
  | [] => [[]]
  | c :: cs =>
    if c = sep then [] :: splitChar sep cs
    else
      match splitChar sep cs with
      | [] => [[c]]
      | p :: ps => (c :: p) :: ps

/-- JavaScript `String.prototype.trim`: drop whitespace from both ends. -/
def trimChars (l : List Char) : List Char :=
  ((l.dropWhile isJsWs).reverse.dropWhile isJsWs).reverse

def jsSplit (sep : Char) (s : String) : List String :=
  (splitChar sep s.data).map String.mk

def jsTrim (s : String) : String := String.mk (trimChars s.data)

def jsToLower (s : String) : String := String.mk (s.data.map jsLowerChar)

/-- Decimal digit value of a character, if it is one. -/
def digitVal (c : Char) : Option Nat :=
  if '0' ≤ c ∧ c ≤ '9' then some (c.toNat - '0'.toNat) else none

/-- Hexadecimal digit value of a character, if it is one. -/
def hexVal (c : Char) : Option Nat :=
  if '0' ≤ c ∧ c ≤ '9' then some (c.toNat - '0'.toNat)
  else if 'a' ≤ c ∧ c ≤ 'f' then some (c.toNat - 'a'.toNat + 10)
  else if 'A' ≤ c ∧ c ≤ 'F' then some (c.toNat - 'A'.toNat + 10)
  else none

/-- Value of the longest leading digit run, accumulating left to right
(the digit scan of ECMA `parseInt`). -/
def readDigitsAux (R : Nat) (dv : Char → Option Nat) (acc : Nat) :
    List Char → Nat
  | [] => acc
  | c :: cs =>
    match dv c with
    | some d => readDigitsAux R dv (acc * R + d) cs
    | none => acc

/-- Longest leading digit run; `none` when the list does not start with a
digit (ECMA `parseInt` yields `NaN` then). -/
def readDigits (R : Nat) (dv : Char → Option Nat) : List Char → Option Nat
  | [] => none
  | c :: cs =>
    match dv c with
    | some d => some (readDigitsAux R dv d cs)
    | none => none

/-- ECMA `parseInt` after whitespace and sign handling: a `0x`/`0X` prefix
switches to hexadecimal, otherwise the digits are decimal. -/
def parseUnsignedInt (l : List Char) : Option Nat :=
  if l.take 2 = ['0', 'x'] || l.take 2 = ['0', 'X'] then
    readDigits 16 hexVal (l.drop 2)
  else
    readDigits 10 digitVal l

/-- ECMA `parseInt` after the whitespace skip: read an optional sign, then
the longest usable digit prefix. -/
def jsParseIntCore : List Char → Option Int
  | [] => none
  | c :: rest =>
    if c = '-' then
      match parseUnsignedInt rest with
      | some n => some (-(n : Int))
      | none => none
    else if c = '+' then
      match parseUnsignedInt rest with
      | some n => some ((n : Int))
      | none => none
    else
      match parseUnsignedInt (c :: rest) with
      | some n => some ((n : Int))
      | none => none

/-- JavaScript `parseInt(s)` with no explicit radix: skip leading whitespace,
read an optional sign, then the longest usable digit prefix; `none` models the
`NaN` result. -/
def jsParseInt (s : String) : Option Int :=
  jsParseIntCore (s.data.dropWhile isJsWs)

/-- The character of a decimal digit. -/
def digitChar (n : Nat) : Char := Char.ofNat ('0'.toNat + n)

/-- Decimal digit emission with explicit fuel (the fuel only serves
structural recursion; `natToChars` always supplies enough). -/
def natToCharsAux : Nat → Nat → List Char
  | 0, _ => []
  | fuel + 1, n =>
    if n < 10 then [digitChar n]
    else natToCharsAux fuel (n / 10) ++ [digitChar (n % 10)]

/-- Decimal digits of a natural number, most significant first (JavaScript
number-to-string for integral values). -/
def natToChars (n : Nat) : List Char := natToCharsAux (n + 1) n

/-- JavaScript template interpolation of an integral number: its decimal
representation, with a leading `-` when negative. -/
def jsNumToString (v : Int) : String :=
  if v < 0 then String.mk ('-' :: natToChars (-v).toNat)
  else String.mk (natToChars v.toNat)

/-!
## The `CacheControl` directive set (`src/CacheControl.ts`)

The closed set of directives, their value kinds, and the `CacheControl`
class.  The class stores its values in dynamically keyed fields
(`this[key] = …`), so it is modelled as a map from directives to optional
values; the `typeof value === "number"` / `value === true` runtime checks of
`toString` are mirrored on the value type `DirVal`.
-/

inductive CCDirective : Type
  | maxAge
  | sMaxage
  | noCache
  | noStore
  | mustRevalidate
  | proxyRevalidate
  | publicD
  | privateD
  | immutable
  | staleWhileRevalidate
  | staleIfError
  | noTransform
  | mustUnderstand
deriving DecidableEq, Fintype

/-- The wire name of each directive. -/
def directiveName : CCDirective → String
  | .maxAge => "max-age"
  | .sMaxage => "s-maxage"
  | .noCache => "no-cache"
  | .noStore => "no-store"
  | .mustRevalidate => "must-revalidate"
  | .proxyRevalidate => "proxy-revalidate"
  | .publicD => "public"
  | .privateD => "private"
  | .immutable => "immutable"
  | .staleWhileRevalidate => "stale-while-revalidate"
  | .staleIfError => "stale-if-error"
  | .noTransform => "no-transform"
  | .mustUnderstand => "must-understand"

inductive DirKind : Type
  | bool
  | num
deriving DecidableEq

/-- The fixed value-kind map `cacheControlDirectiveMap`. -/
def directiveKind : CCDirective → DirKind
  | .maxAge => .num
  | .sMaxage => .num
  | .noCache => .bool
  | .noStore => .bool
  | .mustRevalidate => .bool
  | .proxyRevalidate => .bool
  | .publicD => .bool
  | .privateD => .bool
  | .immutable => .bool
  | .staleWhileRevalidate => .num
  | .staleIfError => .num
  | .noTransform => .bool
  | .mustUnderstand => .bool

/-- Source `Object.entries(cacheControlDirectiveMap)`: the directives in the
declaration order of the object literal in `src/CacheControl.ts`. -/
def cacheControlDirectiveEntries : List CCDirective :=
  [.maxAge, .sMaxage, .noCache, .noStore, .mustRevalidate, .proxyRevalidate,
   .publicD, .privateD, .immutable, .staleWhileRevalidate, .staleIfError,
   .noTransform, .mustUnderstand]

/-- Property lookup `cacheControlDirectiveMap[key]` for an arbitrary string
key: the directive whose name is `key`, if any. -/
def lookupDirective (key : String) : Option CCDirective :=
  cacheControlDirectiveEntries.find? (fun d => directiveName d == key)

/-- A stored directive value: JavaScript `boolean` or (integral) `number`. -/
inductive DirVal : Type
  | b (v : Bool)
  | n (v : Int)
deriving DecidableEq

/-- The `CacheControl` class state: each directive field is either absent
(`undefined`) or holds a value. -/
def CacheControl : Type := CCDirective → Option DirVal

instance : Inhabited CacheControl := ⟨fun _ => none⟩

/-- A freshly constructed `CacheControl` (all fields `undefined`). -/
def emptyCC : CacheControl := fun _ => none

/-- Dynamic field write `this[key] = v`. -/
def setDir (cc : CacheControl) (k : CCDirective) (v : DirVal) : CacheControl :=
  fun d => if d = k then some v else cc d

/-- One iteration of the `parse` loop of `src/CacheControl.ts` on an already
trimmed segment: lower-case it, split on `=` into `[key, rawValue]`, look the
key up in `cacheControlDirectiveMap`, and record the directive. -/
def applyPart (cc : CacheControl) (part : String) : CacheControl :=
  let lowered := jsToLower part
  let segs := jsSplit '=' lowered
  let key := segs.headD ""
  let rawValue := segs[1]?
  match lookupDirective key with
  | some k =>
    match directiveKind k with
    | .bool => setDir cc k (.b true)
    | .num =>
      match rawValue with
      | some rv =>
        match jsParseInt rv with
        | some v => setDir cc k (.n v)
        | none => cc
      | none => cc
  | none => cc

/-- Source `CacheControl.parse`: split the header value on `,`, trim each part, and
process the parts in order starting from the freshly constructed state. -/
def CacheControl.parse (headerValue : String) : CacheControl :=
  ((jsSplit ',' headerValue).map jsTrim).foldl applyPart emptyCC

/-- The token `toString` emits for one directive, if any: the bare name for a
boolean field holding `true`, `name=value` for a number field holding a
number. -/
def tokenOf (cc : CacheControl) (k : CCDirective) : Option String :=
  match directiveKind k with
  | .bool =>
    match cc k with
    | some (.b true) => some (directiveName k)
    | _ => none
  | .num =>
    match cc k with
    | some (.n v) => some (directiveName k ++ "=" ++ jsNumToString v)
    | _ => none

/-- JavaScript `Array.prototype.join`. -/
def jsJoin (sep : String) : List String → String
  | [] => ""
  | [x] => x
  | x :: xs => x ++ sep ++ jsJoin sep xs

/-- Source `CacheControl.toString`: iterate `cacheControlDirectiveEntries` in order,
emit the token of every present and truthy directive, and join with `", "`. -/
def CacheControl.toString (cc : CacheControl) : String :=
  jsJoin ", " (cacheControlDirectiveEntries.filterMap (tokenOf cc))

/-!
## The per-header `CDNCache` controller

The controller variant whose mutation operations take an optional `target`
and consult a per-header record of request directives.  A header map
(`Context["headers"]` on the request side, `set.headers` on the response
side) is modelled as a function from header name to optional value; response
header maps are threaded explicitly through the mutation operations, which in
the source mutate `this.set.headers` in place.
-/

/-- A header map: `Record<string, string | undefined>`. -/
def HeaderMap : Type := String → Option String

/-- The header map with no entries. -/
def emptyHeaders : HeaderMap := fun _ => none

/-- Write one slot of a header map. -/
def updateHeader (m : HeaderMap) (key value : String) : HeaderMap :=
  fun x => if x = key then some value else m x

/-- Source `parseCacheControlDirectives`: split the header value on `,`, and for
each part keep the trimmed, lower-cased text before the first `=`.  The
source collects these into a `Set`; membership testing is all that is done
with it, so a list models it. -/
def parseCacheControlDirectives (cacheControlValue : String) : List String :=
  (jsSplit ',' cacheControlValue).map
    (fun part => jsToLower ((jsSplit '=' (jsTrim part)).headD ""))

/-- The `CDNCache` controller state after construction: the lower-cased
configured header names and the per-header record of parsed request
directives (`undefined` for an unconfigured or absent/empty header). -/
structure CDNCache : Type where
  cacheControlHeaders : List String
  requestDirectives : String → Option (List String)

/-- The `CDNCache` constructor: lower-case the configured names, then build
`requestDirectives` by reading each configured name from the request header
map and parsing every present (truthy) value. -/
def mkCDNCache (cacheControlHeaders : List String)
    (headers : HeaderMap) : CDNCache :=
  let lowered := cacheControlHeaders.map jsToLower
  { cacheControlHeaders := lowered
    requestDirectives := fun h =>
      if h ∈ lowered then
        match headers h with
        | some v => if v = "" then none else some (parseCacheControlDirectives v)
        | none => none
      else none }

/-- Source `this.requestDirectives[header]?.has(d)`: `false` when the record has no
entry for `header`. -/
def dirHas (c : CDNCache) (header d : String) : Bool :=
  match c.requestDirectives header with
  | some ds => ds.contains d
  | none => false

/-- The optional `target` argument of a mutation operation: absent, a single
header name, or an array of header names. -/
inductive Target : Type
  | noTarget
  | single (h : String)
  | multi (hs : List String)

/-- Source `getTargetCacheControlHeaders`: no target resolves to all configured
headers; otherwise the given name(s), lower-cased. -/
def getTargetCacheControlHeaders (c : CDNCache) : Target → List String
  | .noTarget => c.cacheControlHeaders
  | .single h => [jsToLower h]
  | .multi hs => hs.map jsToLower

/-- Source `appendToResponseHeaders`: build the item (`directive=value` when a
truthy value is given, the bare directive otherwise) and append it to the
target slot with `", "`, or set the slot to the item when the slot is empty
(absent or falsy). -/
def appendToResponseHeaders (out : HeaderMap) (target directive : String)
    (value : Option String) : HeaderMap :=
  let item := match value with
    | some v => if v = "" then directive else directive ++ "=" ++ v
    | none => directive
  match out target with
  | some existing =>
    if existing = "" then updateHeader out target item
    else updateHeader out target (existing ++ ", " ++ item)
  | none => updateHeader out target item

/-- Source `setMaxAge`: for each resolved target, skip it when its request
directives contain `no-store`, otherwise append `max-age=<maxAge>`. -/
def setMaxAge (c : CDNCache) (out : HeaderMap) (target : Target)
    (maxAge : Int) : HeaderMap :=
  (getTargetCacheControlHeaders c target).foldl
    (fun o header =>
      if dirHas c header "no-store" then o
      else appendToResponseHeaders o header "max-age" (some (jsNumToString maxAge)))
    out

/-- Source `setSMaxAge`: skip a target when its request directives contain
`no-store` or `private`, otherwise append `s-maxage=<sMaxAge>`. -/
def setSMaxAge (c : CDNCache) (out : HeaderMap) (target : Target)
    (sMaxAge : Int) : HeaderMap :=
  (getTargetCacheControlHeaders c target).foldl
    (fun o header =>
      if dirHas c header "no-store" then o
      else if dirHas c header "private" then o
      else appendToResponseHeaders o header "s-maxage" (some (jsNumToString sMaxAge)))
    out

/-- Source `setNoCache`: skip a target when its request directives contain
`no-store`, otherwise append `no-cache`. -/
def setNoCache (c : CDNCache) (out : HeaderMap) (target : Target) : HeaderMap :=
  (getTargetCacheControlHeaders c target).foldl
    (fun o header =>
      if dirHas c header "no-store" then o
      else appendToResponseHeaders o header "no-cache" none)
    out

/-- Source `setNoStore`: always append `no-store` to every resolved target. -/
def setNoStore (c : CDNCache) (out : HeaderMap) (target : Target) : HeaderMap :=
  (getTargetCacheControlHeaders c target).foldl
    (fun o header => appendToResponseHeaders o header "no-store" none)
    out

/-- Source `setNoTransform`: always append `no-transform` to every resolved
target. -/
def setNoTransform (c : CDNCache) (out : HeaderMap) (target : Target) :
    HeaderMap :=
  (getTargetCacheControlHeaders c target).foldl
    (fun o header => appendToResponseHeaders o header "no-transform" none)
    out

/-- Source `setMustRevalidate`: skip a target when its request directives contain
`no-store`, otherwise append `must-revalidate`. -/
def setMustRevalidate (c : CDNCache) (out : HeaderMap) (target : Target) :
    HeaderMap :=
  (getTargetCacheControlHeaders c target).foldl
    (fun o header =>
      if dirHas c header "no-store" then o
      else appendToResponseHeaders o header "must-revalidate" none)
    out

/-- Source `setProxyRevalidate`: skip a target when its request directives contain
`no-store` or `private`, otherwise append `proxy-revalidate`. -/
def setProxyRevalidate (c : CDNCache) (out : HeaderMap) (target : Target) :
    HeaderMap :=
  (getTargetCacheControlHeaders c target).foldl
    (fun o header =>
      if dirHas c header "no-store" then o
      else if dirHas c header "private" then o
      else appendToResponseHeaders o header "proxy-revalidate" none)
    out

/-- Source `setMustUnderstand`: skip a target when its request directives contain
`no-store`, otherwise append `must-understand`. -/
def setMustUnderstand (c : CDNCache) (out : HeaderMap) (target : Target) :
    HeaderMap :=
  (getTargetCacheControlHeaders c target).foldl
    (fun o header =>
      if dirHas c header "no-store" then o
      else appendToResponseHeaders o header "must-understand" none)
    out

/-- Source `setPrivate`: skip a target when its request directives contain
`no-store` or `public`, otherwise append `private`. -/
def setPrivate (c : CDNCache) (out : HeaderMap) (target : Target) : HeaderMap :=
  (getTargetCacheControlHeaders c target).foldl
    (fun o header =>
      if dirHas c header "no-store" then o
      else if dirHas c header "public" then o
      else appendToResponseHeaders o header "private" none)
    out

/-- Source `setPublic`: skip a target when its request directives contain
`no-store` or `private`, otherwise append `public`. -/
def setPublic (c : CDNCache) (out : HeaderMap) (target : Target) : HeaderMap :=
  (getTargetCacheControlHeaders c target).foldl
    (fun o header =>
      if dirHas c header "no-store" then o
      else if dirHas c header "private" then o
      else appendToResponseHeaders o header "public" none)
    out

/-- Source `setImmutable`: skip a target when its request directives contain
`no-store`, otherwise append `immutable`. -/
def setImmutable (c : CDNCache) (out : HeaderMap) (target : Target) :
    HeaderMap :=
  (getTargetCacheControlHeaders c target).foldl
    (fun o header =>
      if dirHas c header "no-store" then o
      else appendToResponseHeaders o header "immutable" none)
    out

/-- Source `setStaleWhileRevalidate`: skip a target when its request directives
contain `no-store`, otherwise append `stale-while-revalidate=<seconds>`. -/
def setStaleWhileRevalidate (c : CDNCache) (out : HeaderMap) (target : Target)
    (staleWhileRevalidateSeconds : Int) : HeaderMap :=
  (getTargetCacheControlHeaders c target).foldl
    (fun o header =>
      if dirHas c header "no-store" then o
      else appendToResponseHeaders o header "stale-while-revalidate"
        (some (jsNumToString staleWhileRevalidateSeconds)))
    out

/-- Source `setStaleIfError`: skip a target when its request directives contain
`no-store`, otherwise append `stale-if-error=<seconds>`. -/
def setStaleIfError (c : CDNCache) (out : HeaderMap) (target : Target)
    (staleIfErrorSeconds : Int) : HeaderMap :=
  (getTargetCacheControlHeaders c target).foldl
    (fun o header =>
      if dirHas c header "no-store" then o
      else appendToResponseHeaders o header "stale-if-error"
        (some (jsNumToString staleIfErrorSeconds)))
    out

/-- The eleven mutation operations that are subject to suppression
(`setNoStore` and `setNoTransform` are deliberately excluded: they are never
suppressed). -/
inductive SuppressibleOp : Type
  | maxAge (v : Int)
  | sMaxAge (v : Int)
  | noCache
  | mustRevalidate
  | proxyRevalidate
  | mustUnderstand
  | privateOp
  | publicOp
  | immutable
  | staleWhileRevalidate (v : Int)
  | staleIfError (v : Int)

/-- Dispatch a suppressible mutation operation. -/
def applySuppressibleOp (c : CDNCache) (out : HeaderMap) (target : Target) :
    SuppressibleOp → HeaderMap
  | .maxAge v => setMaxAge c out target v
  | .sMaxAge v => setSMaxAge c out target v
  | .noCache => setNoCache c out target
  | .mustRevalidate => setMustRevalidate c out target
  | .proxyRevalidate => setProxyRevalidate c out target
  | .mustUnderstand => setMustUnderstand c out target
  | .privateOp => setPrivate c out target
  | .publicOp => setPublic c out target
  | .immutable => setImmutable c out target
  | .staleWhileRevalidate v => setStaleWhileRevalidate c out target v
  | .staleIfError v => setStaleIfError c out target v

/-!
## The legacy `CDNCache` controller (`src/CDNCache.ts`)

The earlier variant: the configured header names are stored as given, the
request directives of all configured headers are merged into a single set
(`getRequestCacheControlDirectives` unions over every configured header), a
mutation operation has no `target` argument, and `appendToResponseHeaders`
writes the item to every configured header.  Only the pieces needed by the
claims are embedded.  `request.headers.get` of the Fetch API is
case-insensitive, which is modelled by lower-casing the name before reading
the (lower-case keyed) request header map. -/

/-- Legacy `getRequestCacheControlDirectives`: the union, over all configured
headers, of the directives parsed from each present (truthy) request
value. -/
def legacyRequestDirectives (cacheControlHeaders : List String)
    (headers : HeaderMap) : List String :=
  cacheControlHeaders.foldl
    (fun acc header =>
      match headers (jsToLower header) with
      | some v => if v = "" then acc else acc ++ parseCacheControlDirectives v
      | none => acc)
    []

/-- Legacy `appendToResponseHeaders`: append the item to the slot of every
configured header. -/
def legacyAppendToResponseHeaders (cacheControlHeaders : List String)
    (out : HeaderMap) (key : String) (value : Option String) : HeaderMap :=
  let item := match value with
    | some v => if v = "" then key else key ++ "=" ++ v
    | none => key
  cacheControlHeaders.foldl
    (fun o header =>
      match o header with
      | some existing =>
        if existing = "" then updateHeader o header item
        else updateHeader o header (existing ++ ", " ++ item)
      | none => updateHeader o header item)
    out

/-- Legacy `setMaxAge`: return the response headers unchanged when the merged
request directive set contains `no-store`, otherwise append
`max-age=<maxAge>` to every configured header. -/
def legacySetMaxAge (cacheControlHeaders : List String) (headers : HeaderMap)
    (out : HeaderMap) (maxAge : Int) : HeaderMap :=
  if (legacyRequestDirectives cacheControlHeaders headers).contains "no-store" then
    out
  else
    legacyAppendToResponseHeaders cacheControlHeaders out "max-age"
      (some (jsNumToString maxAge))

/-!
## The second `CacheControl` revision (`part_002`)

This revision keeps its state in a plain object `directives` keyed by
directive-name strings.  Property assignment gives first-insertion key
order, which `Object.keys` (and hence `toString`) observes, so the state is
modelled as an insertion-ordered association list from key strings to
values (`none` models a key explicitly set to `undefined`).

Its `parse` looks names up with `BooleanCacheControlDirectiveMap[rawDirective]`
on plain object literals, so the lookup also sees `Object.prototype`
members: after the parser's `toLowerCase`, the member names `constructor`
and `__proto__` (the only all-lowercase ones) yield truthy inherited
values, which are then used as the property key of the recorded entry,
coerced to a string.
-/

/-- The keys of the `BooleanCacheControlDirectiveMap` object literal of the
`part_002` revision (each key maps to itself). -/
def booleanCacheControlDirectives : List String :=
  ["no-cache", "no-store", "must-revalidate", "proxy-revalidate",
   "must-understand", "private", "public"]

/-- The keys of the `NumberCacheControlDirectiveMap` object literal of the
`part_002` revision (each key maps to itself). -/
def numberCacheControlDirectives : List String :=
  ["max-age", "s-maxage", "stale-while-revalidate", "stale-if-error"]

/-- The `Object.prototype` member names reachable by the `part_002` lookup:
the parser lower-cases the raw name first, and `constructor` and
`__proto__` are the only member names written entirely in lower case.
Reading either yields a truthy value (the `Object` constructor function,
respectively the `Object.prototype` object). -/
def objectProtoTruthyKeys : List String := ["constructor", "__proto__"]

/-- The property key the recorded entry ends up under when the truthy value
inherited from `Object.prototype` is itself used as a key: the value is
coerced with `String(...)`.  `String(Object.prototype)` is the
specification-fixed `"[object Object]"`; `String(Object)` prints the
function (the text below is the V8 form; other engines differ in
whitespace).  No statement below depends on these exact characters, only on
an entry being recorded under some key. -/
def protoCoercedKey : String → String
  | "__proto__" => "[object Object]"
  | _ => "function Object() { [native code] }"

/-- Property read `BooleanCacheControlDirectiveMap[key]` of `part_002`,
including the prototype chain, returned as the property key the subsequent
assignment will store the entry under (an own entry's value is the
directive name itself); `none` models the falsy `undefined`. -/
def booleanMapGet (key : String) : Option String :=
  if key ∈ booleanCacheControlDirectives then some key
  else if key ∈ objectProtoTruthyKeys then some (protoCoercedKey key)
  else none

/-- Property read `NumberCacheControlDirectiveMap[key]` of `part_002`,
including the prototype chain. -/
def numberMapGet (key : String) : Option String :=
  if key ∈ numberCacheControlDirectives then some key
  else if key ∈ objectProtoTruthyKeys then some (protoCoercedKey key)
  else none

/-- JavaScript property assignment `directives[k] = v` on an
insertion-ordered record: an existing key keeps its position and gets the
new value, a new key is appended at the end. -/
def insertDirective2 (l : List (String × Option DirVal)) (k : String)
    (v : Option DirVal) : List (String × Option DirVal) :=
  if k ∈ l.map Prod.fst then
    l.map (fun p => if p.1 = k then (k, v) else p)
  else l ++ [(k, v)]

/-- The `CacheControl` class state of the `part_002` revision: the
`directives` object as an insertion-ordered association list. -/
structure CacheControl2 : Type where
  directives : List (String × Option DirVal)

/-- A freshly constructed `part_002` `CacheControl` (empty object). -/
def emptyCC2 : CacheControl2 := ⟨[]⟩

/-- One iteration of the `parse` loop of `part_002`: lower-case the trimmed
segment, split on `=` into `[rawDirective, rawDirectiveValue]`, then try the
boolean map first (recording `true` under the truthy lookup result used as
key) and the number map second (recording the `parseInt` of the raw value
when it is a number). -/
def applyPart2 (cc : List (String × Option DirVal)) (part : String) :
    List (String × Option DirVal) :=
  let lowered := jsToLower part
  let segs := jsSplit '=' lowered
  let rawDirective := segs.headD ""
  let rawDirectiveValue := segs[1]?
  match booleanMapGet rawDirective with
  | some k => insertDirective2 cc k (some (.b true))
  | none =>
    match numberMapGet rawDirective with
    | some k =>
      match rawDirectiveValue with
      | some rv =>
        match jsParseInt rv with
        | some v => insertDirective2 cc k (some (.n v))
        | none => cc
      | none => cc
    | none => cc

/-- Source `CacheControl.parse` of `part_002`: split on `,`, trim each part,
process in order starting from the empty object. -/
def CacheControl2.parse (headerValue : String) : CacheControl2 :=
  ⟨((jsSplit ',' headerValue).map jsTrim).foldl applyPart2 []⟩

/-- Source `CacheControl.set` of `part_002`: `this.directives[directive] =
value; return this` (assigning `undefined` still creates the key). -/
def CacheControl2.set (cc : CacheControl2) (directive : String)
    (value : Option DirVal) : CacheControl2 :=
  ⟨insertDirective2 cc.directives directive value⟩

/-- The token `toString` of `part_002` emits for one stored entry: skip
`false` and `undefined`, the bare key for `true`, `key=value` for a
number. -/
def tokenOf2 : String × Option DirVal → Option String
  | (k, some (.b true)) => some k
  | (_, some (.b false)) => none
  | (k, some (.n v)) => some (k ++ "=" ++ jsNumToString v)
  | (_, none) => none

/-- Source `CacheControl.toString` of `part_002`: iterate
`Object.keys(this.directives)` — first-insertion order — and join the
emitted tokens with `", "`. -/
def CacheControl2.toString (cc : CacheControl2) : String :=
  jsJoin ", " (cc.directives.filterMap tokenOf2)

/-!
## Auxiliary definitions used by the statements and proofs
-/

/-- The value `parse` would record for directive `k` from the token `toString`
emits for it. -/
def parsedVal (d : CacheControl) (k : CCDirective) : Option DirVal :=
  match directiveKind k, d k with
  | .bool, some (.b true) => some (.b true)
  | .num, some (.n v) => some (.n v)
  | _, _ => none

/-- A sample well-formed directive set: `public` with `max-age=60`. -/
def sampleCC : CacheControl := fun k =>
  if k = .publicD then some (.b true)
  else if k = .maxAge then some (.n 60) else none

/-- Modelled from the spec: §3's enumerated directive order (max-age,
s-maxage, no-cache, no-store, no-transform, must-revalidate,
proxy-revalidate, must-understand, private, public, immutable,
stale-while-revalidate, stale-if-error). -/
def specSectionThreeOrder : List CCDirective :=
  [.maxAge, .sMaxage, .noCache, .noStore, .noTransform, .mustRevalidate,
   .proxyRevalidate, .mustUnderstand, .privateD, .publicD, .immutable,
   .staleWhileRevalidate, .staleIfError]

/-- Modelled from the spec's words for C7: serialization emitting
present-and-truthy directives in §3's enumerated order. -/
def specOrderSerialize (cc : CacheControl) : String :=
  jsJoin ", " (specSectionThreeOrder.filterMap (tokenOf cc))

/-- A directive set holding both `public` and `private`. -/
def ccPublicPrivate : CacheControl :=
  setDir (setDir emptyCC .publicD (.b true)) .privateD (.b true)

/-- Modelled from the claim's words for C10: the longest optionally
negative-signed decimal-integer prefix of the raw value, unset when there is
no such prefix. -/
def claimedDecimalPrefixInt (s : String) : Option Int :=
  match s.data with
  | '-' :: rest =>
    match readDigits 10 digitVal rest with
    | some n => some (-(n : Int))
    | none => none
  | l =>
    match readDigits 10 digitVal l with
    | some n => some ((n : Int))
    | none => none

/-- The item `appendToResponseHeaders` builds: `directive=value` for a truthy
value, the bare directive otherwise. -/
def mkItem (directive : String) (value : Option String) : String :=
  match value with
  | some v => if v = "" then directive else directive ++ "=" ++ v
  | none => directive

/-- The value an outbound slot holds after one append: the item verbatim when
the slot was empty (absent or the empty string), the old value plus `", "`
plus the item otherwise. -/
def appendedSlot (old : Option String) (item : String) : String :=
  match old with
  | some existing => if existing = "" then item else existing ++ ", " ++ item
  | none => item

/-- A request header map carrying `Cache-Control: no-store`. -/
def reqNoStore : HeaderMap :=
  fun h => if h = "cache-control" then some "no-store" else none

/-- A request header map carrying `Cache-Control: private`. -/
def reqPrivate : HeaderMap :=
  fun h => if h = "cache-control" then some "private" else none

/-- The legacy two-header configuration of the counterexample. -/
def legacyCfg : List String := ["CDN-Cache-Control", "Cache-Control"]

/-- A request with `CDN-Cache-Control: no-store` and
`Cache-Control: public`. -/
def legacyRequest : HeaderMap :=
  fun h =>
    if h = "cdn-cache-control" then some "no-store"
    else if h = "cache-control" then some "public" else none

theorem natToCharsAux_fuel_irrelevant :
    ∀ (n fuel₁ fuel₂ : Nat), n < fuel₁ → n < fuel₂ →
      natToCharsAux fuel₁ n = natToCharsAux fuel₂ n := by
  intro n
  induction n using Nat.strong_induction_on with
  | _ n ih =>
    intro fuel₁ fuel₂ h1 h2
    cases fuel₁ with
    | zero => omega
    | succ f₁ =>
      cases fuel₂ with
      | zero => omega
      | succ f₂ =>
        simp only [natToCharsAux]
        split
        · rfl
        · rw [ih (n / 10) (Nat.div_lt_self (by omega) (by omega)) f₁ f₂
            (by omega) (by omega)]

/-- The recurrence `natToChars` satisfies. -/
theorem natToChars_unfold (n : Nat) :
    natToChars n =
      if n < 10 then [digitChar n]
      else natToChars (n / 10) ++ [digitChar (n % 10)] := by
  show natToCharsAux (n + 1) n = _
  rw [show natToCharsAux (n + 1) n =
      if n < 10 then [digitChar n]
      else natToCharsAux n (n / 10) ++ [digitChar (n % 10)] from rfl]
  by_cases h : n < 10
  · rw [if_pos h, if_pos h]
  · rw [if_neg h, if_neg h,
      natToCharsAux_fuel_irrelevant (n / 10) n (n / 10 + 1)
        (Nat.div_lt_self (by omega) (by omega)) (by omega)]
    rfl

theorem data_mk (l : List Char) : (String.mk l).data = l := rfl

theorem data_append (s t : String) : (s ++ t).data = s.data ++ t.data := rfl

/-!
## Lemmas about the string primitives
-/

theorem mk_data (s : String) : String.mk s.data = s := rfl

theorem splitChar_ne_nil (sep : Char) (l : List Char) : splitChar sep l ≠ [] := by
  induction l with
  | nil => simp [splitChar]
  | cons c cs ih =>
    simp only [splitChar]
    split
    · simp
    · cases h : splitChar sep cs with
      | nil => simp
      | cons p ps => simp [h]

theorem splitChar_cons_of_ne {sep c : Char} (cs : List Char) (h : ¬c = sep) :
    splitChar sep (c :: cs) =
      match splitChar sep cs with
      | [] => [[c]]
      | p :: ps => (c :: p) :: ps := by
  simp only [splitChar, if_neg h]

theorem splitChar_no_sep {sep : Char} {l : List Char} (h : sep ∉ l) :
    splitChar sep l = [l] := by
  induction l with
  | nil => rfl
  | cons c cs ih =>
    simp only [List.mem_cons, not_or] at h
    rw [splitChar_cons_of_ne _ (Ne.symm h.1), ih h.2]

theorem splitChar_append {sep : Char} {l₁ l₂ : List Char} (h : sep ∉ l₁) :
    splitChar sep (l₁ ++ sep :: l₂) = l₁ :: splitChar sep l₂ := by
  induction l₁ with
  | nil => simp [splitChar]
  | cons c cs ih =>
    simp only [List.mem_cons, not_or] at h
    show splitChar sep (c :: (cs ++ sep :: l₂)) = _
    rw [splitChar_cons_of_ne _ (Ne.symm h.1), ih h.2]

theorem dropWhile_eq_self {p : Char → Bool} {l : List Char}
    (h : ∀ c ∈ l, p c = false) : l.dropWhile p = l := by
  cases l with
  | nil => rfl
  | cons c cs => simp [List.dropWhile_cons, h c (by simp)]

theorem trimChars_eq_self {l : List Char} (h : ∀ c ∈ l, isJsWs c = false) :
    trimChars l = l := by
  unfold trimChars
  rw [dropWhile_eq_self h, dropWhile_eq_self (by simpa using h), List.reverse_reverse]

theorem trimChars_cons_ws {c : Char} {l : List Char} (h : isJsWs c = true) :
    trimChars (c :: l) = trimChars l := by
  unfold trimChars
  rw [List.dropWhile_cons, if_pos h]

theorem map_lower_eq_self {l : List Char} (h : ∀ c ∈ l, jsLowerChar c = c) :
    l.map jsLowerChar = l := by
  induction l with
  | nil => rfl
  | cons c cs ih =>
    simp only [List.map_cons, h c (by simp), ih (fun d hd => h d (by simp [hd]))]

theorem jsToLower_data {s : String} (h : ∀ c ∈ s.data, jsLowerChar c = c) :
    jsToLower s = s := by
  unfold jsToLower
  rw [map_lower_eq_self h, mk_data]

theorem jsToLower_append (s t : String) :
    jsToLower (s ++ t) = jsToLower s ++ jsToLower t := by
  unfold jsToLower
  show String.mk ((s.data ++ t.data).map jsLowerChar) = _
  rw [List.map_append]
  rfl

/-- The characters a decimal digit can be have none of the special roles the
parsing pipeline looks for. -/
theorem digit_char_props {c : Char} (h0 : '0' ≤ c) (h9 : c ≤ '9') :
    isJsWs c = false ∧ jsLowerChar c = c ∧ c ≠ ',' ∧ c ≠ '=' ∧ c ≠ 'x' ∧
      c ≠ 'X' ∧ c ≠ '-' ∧ c ≠ '+' := by
  refine ⟨?_, ?_, ?_, ?_, ?_, ?_, ?_, ?_⟩
  · simp only [isJsWs, Bool.or_eq_false_iff, decide_eq_false_iff_not]
    refine ⟨⟨⟨⟨⟨?_, ?_⟩, ?_⟩, ?_⟩, ?_⟩, ?_⟩ <;>
      · intro h; subst h; revert h9; revert h0; decide
  · unfold jsLowerChar
    rw [if_neg]
    rintro ⟨hA, -⟩
    exact absurd (hA.trans h9) (by decide)
  all_goals (intro h; subst h; revert h9; revert h0; decide)

theorem digitVal_isSome {c : Char} (h0 : '0' ≤ c) (h9 : c ≤ '9') :
    (digitVal c).isSome := by
  simp [digitVal, h0, h9]

theorem digitVal_digitChar {n : Nat} (h : n < 10) :
    digitVal (digitChar n) = some n := by
  interval_cases n <;> decide

theorem digitChar_bounds {n : Nat} (h : n < 10) :
    '0' ≤ digitChar n ∧ digitChar n ≤ '9' := by
  interval_cases n <;> decide

theorem natToChars_digits (n : Nat) :
    ∀ c ∈ natToChars n, '0' ≤ c ∧ c ≤ '9' := by
  induction n using Nat.strong_induction_on with
  | _ n ih =>
    rw [natToChars_unfold]
    split
    · intro c hc
      simp only [List.mem_singleton] at hc
      subst hc
      exact digitChar_bounds (by omega)
    · intro c hc
      rw [List.mem_append] at hc
      rcases hc with hc | hc
      · exact ih (n / 10) (Nat.div_lt_self (by omega) (by omega)) c hc
      · simp only [List.mem_singleton] at hc
        subst hc
        exact digitChar_bounds (Nat.mod_lt _ (by omega))

theorem natToChars_ne_nil (n : Nat) : natToChars n ≠ [] := by
  rw [natToChars_unfold]
  split <;> simp

theorem readDigitsAux_append {R : Nat} {dv : Char → Option Nat}
    {l₁ : List Char} (l₂ : List Char) (acc : Nat)
    (h : ∀ c ∈ l₁, (dv c).isSome) :
    readDigitsAux R dv acc (l₁ ++ l₂) =
      readDigitsAux R dv (readDigitsAux R dv acc l₁) l₂ := by
  induction l₁ generalizing acc with
  | nil => rfl
  | cons c cs ih =>
    have hc := h c (by simp)
    rw [Option.isSome_iff_exists] at hc
    obtain ⟨d, hd⟩ := hc
    simp only [List.cons_append, readDigitsAux, hd]
    exact ih _ (fun x hx => h x (by simp [hx]))

theorem readDigitsAux_natToChars (n : Nat) :
    ∀ acc, readDigitsAux 10 digitVal acc (natToChars n) =
      acc * 10 ^ (natToChars n).length + n := by
  induction n using Nat.strong_induction_on with
  | _ n ih =>
    intro acc
    rw [natToChars_unfold]
    split
    · rename_i h
      simp only [readDigitsAux, digitVal_digitChar h]
      simp
    · rename_i h
      have hq := ih (n / 10) (Nat.div_lt_self (by omega) (by omega))
      rw [readDigitsAux_append _ acc
            (fun c hc => by
              have := natToChars_digits (n / 10) c hc
              exact digitVal_isSome this.1 this.2),
          hq acc]
      have hr : n % 10 < 10 := Nat.mod_lt _ (by omega)
      simp only [readDigitsAux, digitVal_digitChar hr]
      rw [List.length_append, List.length_singleton, pow_succ]
      have : n % 10 + 10 * (n / 10) = n := Nat.mod_add_div n 10
      ring_nf
      omega

theorem readDigits_natToChars (n : Nat) :
    readDigits 10 digitVal (natToChars n) = some n := by
  cases h : natToChars n with
  | nil => exact absurd h (natToChars_ne_nil n)
  | cons c cs =>
    have hc : '0' ≤ c ∧ c ≤ '9' := natToChars_digits n c (by rw [h]; simp)
    have hv := digitVal_isSome hc.1 hc.2
    rw [Option.isSome_iff_exists] at hv
    obtain ⟨d, hd⟩ := hv
    have haux : readDigitsAux 10 digitVal 0 (natToChars n) =
        0 * 10 ^ (natToChars n).length + n := readDigitsAux_natToChars n 0
    rw [h] at haux
    simp only [readDigits, hd]
    simp only [readDigitsAux, hd, Nat.zero_mul, Nat.zero_add] at haux
    have : d = 0 * 10 + d := by omega
    rw [haux]

theorem parseUnsignedInt_natToChars (n : Nat) :
    parseUnsignedInt (natToChars n) = some n := by
  unfold parseUnsignedInt
  rw [if_neg, readDigits_natToChars]
  intro h
  rw [Bool.or_eq_true, decide_eq_true_iff, decide_eq_true_iff] at h
  rcases h with h | h
  · have : 'x' ∈ natToChars n := List.take_subset 2 _ (by rw [h]; simp)
    have := natToChars_digits n 'x' this
    exact absurd this.2 (by decide)
  · have : 'X' ∈ natToChars n := List.take_subset 2 _ (by rw [h]; simp)
    have := natToChars_digits n 'X' this
    exact absurd this.2 (by decide)

/-- Printing an integral JavaScript number and reading it back with
`parseInt` recovers the number. -/
theorem jsParseInt_jsNumToString (v : Int) :
    jsParseInt (jsNumToString v) = some v := by
  by_cases hv : v < 0
  · unfold jsNumToString jsParseInt
    rw [if_pos hv]
    simp only [data_mk]
    rw [dropWhile_eq_self (l := '-' :: natToChars (-v).toNat)
          (by
            intro c hc
            rcases List.mem_cons.mp hc with rfl | hc
            · decide
            · exact (digit_char_props (natToChars_digits _ c hc).1
                (natToChars_digits _ c hc).2).1)]
    simp [jsParseIntCore, parseUnsignedInt_natToChars]
    omega
  · unfold jsNumToString jsParseInt
    rw [if_neg hv]
    simp only [data_mk]
    cases h : natToChars v.toNat with
    | nil => exact absurd h (natToChars_ne_nil _)
    | cons c cs =>
      have hc : '0' ≤ c ∧ c ≤ '9' := natToChars_digits _ c (by rw [h]; simp)
      have hp := digit_char_props hc.1 hc.2
      rw [dropWhile_eq_self (l := c :: cs)
            (by
              intro d hd
              have : d ∈ natToChars v.toNat := by rw [h]; exact hd
              have hb := natToChars_digits _ d this
              exact (digit_char_props hb.1 hb.2).1)]
      simp only [jsParseIntCore, if_neg hp.2.2.2.2.2.2.1,
        if_neg hp.2.2.2.2.2.2.2, ← h, parseUnsignedInt_natToChars]
      congr 1
      omega

/-!
## Lemmas about `CacheControl.parse` and `CacheControl.toString`
-/

theorem jsTrim_eq_self {s : String} (h : ∀ c ∈ s.data, isJsWs c = false) :
    jsTrim s = s := by
  unfold jsTrim
  rw [trimChars_eq_self h, mk_data]

theorem jsSplit_no_sep {sep : Char} {s : String} (h : sep ∉ s.data) :
    jsSplit sep s = [s] := by
  unfold jsSplit
  rw [splitChar_no_sep h, List.map_singleton, mk_data]

/-- Every character of a directive name is lower-case, non-whitespace, and
neither `,` nor `=`. -/
theorem directiveName_chars (k : CCDirective) :
    ∀ c ∈ (directiveName k).data,
      isJsWs c = false ∧ jsLowerChar c = c ∧ c ≠ ',' ∧ c ≠ '=' := by
  cases k <;> decide

/-- Every character of a printed number is lower-case, non-whitespace, and
neither `,` nor `=`. -/
theorem jsNumToString_chars (v : Int) :
    ∀ c ∈ (jsNumToString v).data,
      isJsWs c = false ∧ jsLowerChar c = c ∧ c ≠ ',' ∧ c ≠ '=' := by
  intro c hc
  have hdig : ('0' ≤ c ∧ c ≤ '9') ∨ c = '-' := by
    unfold jsNumToString at hc
    split at hc <;> rw [data_mk] at hc
    · rcases List.mem_cons.mp hc with rfl | hc
      · exact Or.inr rfl
      · exact Or.inl (natToChars_digits _ c hc)
    · exact Or.inl (natToChars_digits _ c hc)
  rcases hdig with ⟨h0, h9⟩ | rfl
  · have := digit_char_props h0 h9
    exact ⟨this.1, this.2.1, this.2.2.1, this.2.2.2.1⟩
  · refine ⟨by decide, by decide, by decide, by decide⟩

theorem jsToLower_jsNumToString (v : Int) :
    jsToLower (jsNumToString v) = jsNumToString v :=
  jsToLower_data (fun c hc => (jsNumToString_chars v c hc).2.1)

theorem lookupDirective_name (k : CCDirective) :
    lookupDirective (directiveName k) = some k := by
  cases k <;> rfl

/-- Splitting `nm ++ "=" ++ rv` on `=` when the name contains no `=`:
the name is the first segment. -/
theorem jsSplit_eq_append {nm rv : String} (h : '=' ∉ nm.data) :
    jsSplit '=' (nm ++ "=" ++ rv) = nm :: jsSplit '=' rv := by
  unfold jsSplit
  have hd : (nm ++ "=" ++ rv).data = nm.data ++ '=' :: rv.data := by
    rw [data_append, data_append]
    show nm.data ++ ['='] ++ rv.data = _
    rw [List.append_assoc, List.singleton_append]
  rw [hd, splitChar_append h, List.map_cons, mk_data]

/-- Processing the segment `name(k)` for a boolean directive records `true`. -/
theorem applyPart_bool_token {k : CCDirective} (hk : directiveKind k = .bool)
    (cc : CacheControl) :
    applyPart cc (directiveName k) = setDir cc k (.b true) := by
  cases k <;> first
    | exact absurd hk (by decide)
    | rfl

/-- Processing the segment `name(k)=rv` for a numeric directive records
`parseInt(rv)` when it is a number and leaves the state unchanged when it is
`NaN` (for a raw value that is already lower-case and contains no `=`). -/
theorem applyPart_num_token {k : CCDirective} (hk : directiveKind k = .num)
    {rv : String} (hlow : jsToLower rv = rv) (hne : '=' ∉ rv.data)
    (cc : CacheControl) :
    applyPart cc (directiveName k ++ "=" ++ rv) =
      match jsParseInt rv with
      | some v => setDir cc k (.n v)
      | none => cc := by
  have hname : '=' ∉ (directiveName k).data :=
    fun h => (directiveName_chars k '=' h).2.2.2 rfl
  have hlowname : jsToLower (directiveName k) = directiveName k :=
    jsToLower_data (fun c hc => (directiveName_chars k c hc).2.1)
  have hloweq : jsToLower ("=" : String) = "=" := rfl
  simp only [applyPart]
  rw [jsToLower_append, jsToLower_append, hlowname, hloweq, hlow,
    jsSplit_eq_append hname, jsSplit_no_sep hne]
  simp only [List.headD_cons, lookupDirective_name, hk]
  rfl

/-- Splitting a `", "`-join of comma-free, whitespace-free parts on `,` and
trimming recovers the parts. -/
theorem split_trim_join (ps : List String)
    (hcomma : ∀ p ∈ ps, ',' ∉ p.data)
    (hws : ∀ p ∈ ps, ∀ c ∈ p.data, isJsWs c = false)
    (hne : ps ≠ []) :
    (jsSplit ',' (jsJoin ", " ps)).map jsTrim = ps := by
  induction ps with
  | nil => exact absurd rfl hne
  | cons x xs ih =>
    cases xs with
    | nil =>
      show (jsSplit ',' x).map jsTrim = [x]
      rw [jsSplit_no_sep (hcomma x (by simp)), List.map_singleton,
        jsTrim_eq_self (hws x (by simp))]
    | cons y rest =>
      have hxs : (y :: rest) ≠ [] := by simp
      have hIH := ih (fun p hp => hcomma p (by simp [hp]))
        (fun p hp => hws p (by simp [hp])) hxs
      obtain ⟨z, zs, hz⟩ : ∃ z zs,
          splitChar ',' (jsJoin ", " (y :: rest)).data = z :: zs := by
        cases h : splitChar ',' (jsJoin ", " (y :: rest)).data with
        | nil => exact absurd h (splitChar_ne_nil _ _)
        | cons z zs => exact ⟨z, zs, rfl⟩
      unfold jsSplit at hIH
      rw [hz] at hIH
      have hdata : (jsJoin ", " (x :: y :: rest)).data =
          x.data ++ ',' :: ' ' :: (jsJoin ", " (y :: rest)).data := by
        show (x ++ ", " ++ jsJoin ", " (y :: rest)).data = _
        rw [data_append, data_append]
        show x.data ++ [',', ' '] ++ _ = _
        rw [List.append_assoc]
        rfl
      unfold jsSplit
      rw [hdata, splitChar_append (hcomma x (by simp)),
        splitChar_cons_of_ne _ (by decide), hz]
      simp only [List.map_cons] at hIH ⊢
      rw [List.cons_eq_cons] at hIH
      have htrim : jsTrim (String.mk (' ' :: z)) = jsTrim (String.mk z) := by
        unfold jsTrim
        rw [data_mk, data_mk, trimChars_cons_ws (by decide)]
      rw [mk_data, jsTrim_eq_self (hws x (by simp)), htrim, hIH.1, hIH.2]

theorem tokenOf_eq_some {d : CacheControl} {k : CCDirective} {t : String}
    (h : tokenOf d k = some t) :
    (directiveKind k = .bool ∧ d k = some (.b true) ∧ t = directiveName k) ∨
    (∃ v, directiveKind k = .num ∧ d k = some (.n v) ∧
      t = directiveName k ++ "=" ++ jsNumToString v) := by
  unfold tokenOf at h
  cases hkind : directiveKind k <;> rw [hkind] at h
  · cases hd : d k <;> rw [hd] at h
    · exact absurd h (by simp)
    · rename_i w
      cases w with
      | b bv =>
        cases bv with
        | true =>
          rw [Option.some_inj] at h
          exact Or.inl ⟨rfl, rfl, h.symm⟩
        | false => exact absurd h (by simp)
      | n nv => exact absurd h (by simp)
  · cases hd : d k <;> rw [hd] at h
    · exact absurd h (by simp)
    · rename_i w
      cases w with
      | b bv => exact absurd h (by simp)
      | n nv =>
        rw [Option.some_inj] at h
        exact Or.inr ⟨nv, rfl, rfl, h.symm⟩

theorem tokenOf_isSome_parsedVal {d : CacheControl} {k : CCDirective}
    (h : (tokenOf d k).isSome = false) (hgood :
      (directiveKind k = .bool → d k = none ∨ d k = some (.b true)) ∧
      (directiveKind k = .num → d k = none ∨ ∃ v, d k = some (.n v))) :
    d k = none := by
  unfold tokenOf at h
  cases hkind : directiveKind k <;> rw [hkind] at h
  · rcases hgood.1 hkind with hd | hd
    · exact hd
    · rw [hd] at h
      simp at h
  · rcases hgood.2 hkind with hd | ⟨v, hd⟩
    · exact hd
    · rw [hd] at h
      simp at h

/-- The effect on directive `k` of folding `applyPart` over the tokens that
`toString` emits for the directives in `es`. -/
theorem foldl_applyPart_filterMap (d : CacheControl) (es : List CCDirective) :
    ∀ (cc : CacheControl) (k : CCDirective),
      ((es.filterMap (tokenOf d)).foldl applyPart cc) k =
        if k ∈ es ∧ (tokenOf d k).isSome then parsedVal d k else cc k := by
  induction es with
  | nil =>
    intro cc k
    rw [if_neg (by simp)]
    rfl
  | cons e es ih =>
    intro cc k
    cases ht : tokenOf d e with
    | none =>
      rw [List.filterMap_cons_none ht, ih cc k]
      by_cases hk : k ∈ es ∧ (tokenOf d k).isSome
      · rw [if_pos hk, if_pos ⟨by simp [hk.1], hk.2⟩]
      · rw [if_neg hk, if_neg]
        rintro ⟨hmem, hsome⟩
        rcases List.mem_cons.mp hmem with rfl | hmem
        · rw [ht] at hsome
          exact absurd hsome (by simp)
        · exact hk ⟨hmem, hsome⟩
    | some t =>
      rw [List.filterMap_cons_some ht, List.foldl_cons]
      have happ : ∃ w, applyPart cc t = setDir cc e w ∧ parsedVal d e = some w := by
        rcases tokenOf_eq_some ht with ⟨hkind, hd, rfl⟩ | ⟨v, hkind, hd, rfl⟩
        · exact ⟨.b true, applyPart_bool_token hkind cc, by
            unfold parsedVal
            rw [hkind, hd]⟩
        · refine ⟨.n v, ?_, by
            unfold parsedVal
            rw [hkind, hd]⟩
          rw [applyPart_num_token hkind (jsToLower_jsNumToString v)
            (fun hc => (jsNumToString_chars v '=' hc).2.2.2 rfl) cc,
            jsParseInt_jsNumToString v]
      obtain ⟨w, happ, hpv⟩ := happ
      rw [happ, ih (setDir cc e w) k]
      by_cases hk : k ∈ es ∧ (tokenOf d k).isSome
      · rw [if_pos hk, if_pos ⟨by simp [hk.1], hk.2⟩]
      · rw [if_neg hk]
        by_cases hke : k = e
        · subst hke
          rw [if_pos ⟨by simp, by simp [ht]⟩, hpv]
          unfold setDir
          rw [if_pos rfl]
        · rw [if_neg]
          · unfold setDir
            rw [if_neg hke]
          · rintro ⟨hmem, hsome⟩
            rcases List.mem_cons.mp hmem with rfl | hmem
            · exact hke rfl
            · exact hk ⟨hmem, hsome⟩

theorem data_name_eq (nm rv : String) :
    (nm ++ "=" ++ rv).data = nm.data ++ '=' :: rv.data := by
  rw [data_append, data_append]
  show nm.data ++ ['='] ++ rv.data = _
  rw [List.append_assoc]
  rfl

theorem parse_empty : ∀ k, CacheControl.parse "" k = none := by decide

/-- Every character of a `toString` token is non-whitespace and not a
comma. -/
theorem token_chars {d : CacheControl} {k : CCDirective} {t : String}
    (h : tokenOf d k = some t) :
    ∀ c ∈ t.data, isJsWs c = false ∧ c ≠ ',' := by
  rcases tokenOf_eq_some h with ⟨-, -, rfl⟩ | ⟨v, -, -, rfl⟩
  · intro c hc
    have := directiveName_chars k c hc
    exact ⟨this.1, this.2.2.1⟩
  · intro c hc
    rw [data_name_eq] at hc
    rcases List.mem_append.mp hc with hc | hc
    · have := directiveName_chars k c hc
      exact ⟨this.1, this.2.2.1⟩
    · rcases List.mem_cons.mp hc with rfl | hc
      · exact ⟨by decide, by decide⟩
      · have := jsNumToString_chars v c hc
        exact ⟨this.1, this.2.2.1⟩

theorem mem_entries (k : CCDirective) : k ∈ cacheControlDirectiveEntries := by
  cases k <;> decide

/-- Round trip at the heart of the serializer contract: parsing the
serialization of a well-formed `CacheControl` (booleans only `true`, numbers
only numbers) reconstructs it exactly. -/
theorem parse_toString (d : CacheControl)
    (hb : ∀ k, directiveKind k = .bool → d k = none ∨ d k = some (.b true))
    (hn : ∀ k, directiveKind k = .num → d k = none ∨ ∃ v, d k = some (.n v)) :
    ∀ k, CacheControl.parse (CacheControl.toString d) k = d k := by
  intro k
  by_cases hps : cacheControlDirectiveEntries.filterMap (tokenOf d) = []
  · have hnone : tokenOf d k = none :=
      List.filterMap_eq_nil_iff.mp hps k (mem_entries k)
    have hdk : d k = none :=
      tokenOf_isSome_parsedVal (by rw [hnone]; rfl) ⟨hb k, hn k⟩
    have hts : CacheControl.toString d = "" := by
      unfold CacheControl.toString
      rw [hps]
      rfl
    rw [hts, parse_empty k, hdk]
  · have hsplit := split_trim_join (cacheControlDirectiveEntries.filterMap (tokenOf d))
      (fun p hp hc => by
        obtain ⟨a, -, ha⟩ := List.mem_filterMap.mp hp
        exact (token_chars ha ',' hc).2 rfl)
      (fun p hp c hc => by
        obtain ⟨a, -, ha⟩ := List.mem_filterMap.mp hp
        exact (token_chars ha c hc).1)
      hps
    have hfold : CacheControl.parse (CacheControl.toString d) =
        (cacheControlDirectiveEntries.filterMap (tokenOf d)).foldl applyPart
          emptyCC := by
      unfold CacheControl.parse CacheControl.toString
      rw [hsplit]
    rw [hfold, foldl_applyPart_filterMap d _ emptyCC k]
    by_cases hsome : (tokenOf d k).isSome
    · rw [if_pos ⟨mem_entries k, hsome⟩]
      rw [Option.isSome_iff_exists] at hsome
      obtain ⟨t, ht⟩ := hsome
      rcases tokenOf_eq_some ht with ⟨hkind, hd, -⟩ | ⟨v, hkind, hd, -⟩
      · unfold parsedVal
        rw [hkind, hd]
      · unfold parsedVal
        rw [hkind, hd]
    · rw [if_neg (fun hcon => hsome hcon.2)]
      have hdk : d k = none :=
        tokenOf_isSome_parsedVal (by simpa using hsome) ⟨hb k, hn k⟩
      rw [hdk]
      rfl

/-- C6: for every `CacheControl` in which every stored boolean directive is
`true` and every stored numeric directive is a non-negative integer, parsing
the string produced by `toString` reconstructs the directive set exactly —
in particular it reports exactly the same truthy boolean directives, and
every numeric directive set to `v ≥ 0` with value exactly `v`. -/
theorem c6_parse_serialize_roundtrip (d : CacheControl)
    (hb : ∀ k, directiveKind k = .bool → d k = none ∨ d k = some (.b true))
    (hn : ∀ k, directiveKind k = .num →
      d k = none ∨ ∃ v : Int, 0 ≤ v ∧ d k = some (.n v)) :
    ∀ k, CacheControl.parse (CacheControl.toString d) k = d k :=
  parse_toString d hb (by
    intro k hk
    rcases hn k hk with h | ⟨v, -, hv⟩
    · exact Or.inl h
    · exact Or.inr ⟨v, hv⟩)

theorem c6_witness :
    (∀ k, directiveKind k = .bool →
      sampleCC k = none ∨ sampleCC k = some (.b true)) ∧
    (∀ k, directiveKind k = .num →
      sampleCC k = none ∨ ∃ v : Int, 0 ≤ v ∧ sampleCC k = some (.n v)) ∧
    CacheControl.parse (CacheControl.toString sampleCC) .maxAge =
      sampleCC .maxAge := by
  have hb : ∀ k, directiveKind k = .bool →
      sampleCC k = none ∨ sampleCC k = some (.b true) := by decide
  have hn : ∀ k, directiveKind k = .num →
      sampleCC k = none ∨ ∃ v : Int, 0 ≤ v ∧ sampleCC k = some (.n v) := by
    intro k hk
    cases k <;> first
      | exact absurd hk (by decide)
      | exact Or.inl rfl
      | exact Or.inr ⟨60, by decide, rfl⟩
  exact ⟨hb, hn, c6_parse_serialize_roundtrip sampleCC hb hn .maxAge⟩

/-- C7 counterexample: neither `Serialize` of the repository emits in §3's
enumerated order.  In the `src/CacheControl.ts` revision, with both `public`
and `private` set, `toString` emits `"public, private"` while §3's order
gives `"private, public"` (the declaration order of
`cacheControlDirectiveMap` places `public` before `private` and
`no-transform`/`must-understand` last).  In the `part_002` revision there is
no fixed order at all: `toString` follows insertion order, so setting
`private` then `public` and setting `public` then `private` produce
different byte-strings for the same final directive values. -/
theorem c7_counterexample :
    CacheControl.toString ccPublicPrivate = "public, private" ∧
    specOrderSerialize ccPublicPrivate = "private, public" ∧
    CacheControl.toString ccPublicPrivate ≠
      specOrderSerialize ccPublicPrivate ∧
    CacheControl2.toString
      ((emptyCC2.set "private" (some (.b true))).set "public"
        (some (.b true))) = "private, public" ∧
    CacheControl2.toString
      ((emptyCC2.set "public" (some (.b true))).set "private"
        (some (.b true))) = "public, private" ∧
    ("private, public" : String) ≠ "public, private" := by
  decide

/-- C7 (amended): the two `Serialize` revisions order their output
differently, and neither uses §3's enumerated order.  The
`src/CacheControl.ts` `toString` emits present-and-truthy directives in the
fixed declaration order of `cacheControlDirectiveMap` — max-age, s-maxage,
no-cache, no-store, must-revalidate, proxy-revalidate, public, private,
immutable, stale-while-revalidate, stale-if-error, no-transform,
must-understand — independent of the order in which the directive fields
were written, so that revision's byte-string is deterministic for a given
directive state.  The `part_002` `toString` instead iterates
`Object.keys(this.directives)`, i.e. first-insertion order — property
assignment keeps an existing key's position and appends a new key at the
end — so its byte-string depends on the order in which directives were set
or parsed; the README documents exactly this with
`set("public", true).set("max-age", 3600)` printing
`"public, max-age=3600"`. -/
theorem c7_amended_canonical_order :
    (∀ cc : CacheControl, CacheControl.toString cc =
      jsJoin ", " (([CCDirective.maxAge, .sMaxage, .noCache, .noStore,
        .mustRevalidate, .proxyRevalidate, .publicD, .privateD, .immutable,
        .staleWhileRevalidate, .staleIfError, .noTransform,
        .mustUnderstand]).filterMap (tokenOf cc))) ∧
    (∀ (cc : CacheControl) (k₁ k₂ : CCDirective) (v₁ v₂ : DirVal), k₁ ≠ k₂ →
      CacheControl.toString (setDir (setDir cc k₁ v₁) k₂ v₂) =
        CacheControl.toString (setDir (setDir cc k₂ v₂) k₁ v₁)) ∧
    (∀ (l : List (String × Option DirVal)) (k : String) (v : Option DirVal),
      (insertDirective2 l k v).map Prod.fst =
        if k ∈ l.map Prod.fst then l.map Prod.fst
        else l.map Prod.fst ++ [k]) ∧
    CacheControl2.toString
      ((emptyCC2.set "public" (some (.b true))).set "max-age"
        (some (.n 3600))) = "public, max-age=3600" := by
  refine ⟨fun cc => rfl, ?_, ?_, by decide⟩
  · intro cc k₁ k₂ v₁ v₂ hne
    have hcomm : setDir (setDir cc k₁ v₁) k₂ v₂ =
        setDir (setDir cc k₂ v₂) k₁ v₁ := by
      funext d
      unfold setDir
      by_cases h1 : d = k₁
      · by_cases h2 : d = k₂
        · exact absurd (h1.symm.trans h2) hne
        · rw [if_neg h2, if_pos h1, if_pos h1]
      · by_cases h2 : d = k₂
        · rw [if_pos h2, if_neg h1, if_pos h2]
        · rw [if_neg h2, if_neg h1, if_neg h1, if_neg h2]
    rw [hcomm]
  · intro l k v
    unfold insertDirective2
    by_cases hk : k ∈ l.map Prod.fst
    · rw [if_pos hk, if_pos hk, List.map_map]
      refine List.map_congr_left (fun p hp => ?_)
      by_cases hp1 : p.1 = k
      · simp [hp1]
      · simp [hp1]
    · rw [if_neg hk, if_neg hk, List.map_append]
      rfl

theorem c7_witness :
    (CCDirective.publicD ≠ CCDirective.maxAge) ∧
    CacheControl.toString (setDir (setDir emptyCC .publicD (.b true))
        .maxAge (.n 60)) =
      CacheControl.toString (setDir (setDir emptyCC .maxAge (.n 60))
        .publicD (.b true)) :=
  ⟨by decide,
   c7_amended_canonical_order.2.1 emptyCC .publicD .maxAge (.b true) (.n 60)
     (by decide)⟩

/-- C10 counterexample: for the raw value `0x10` the claim's reading (the
decimal prefix `0`, then other characters) stores `0`, but `parseInt` honours
the `0x` prefix and the code stores `16`. -/
theorem c10_counterexample :
    CacheControl.parse "max-age=0x10" .maxAge = some (.n 16) ∧
    claimedDecimalPrefixInt "0x10" = some 0 ∧
    (some (DirVal.n 16) : Option DirVal) ≠ some (.n 0) := by
  decide

/-- C10 (amended): for a numeric directive, `parse` stores the result of
JavaScript `parseInt` on the raw value — skip leading whitespace, read an
optional sign, honour a `0x`/`0X` hexadecimal prefix, then take the longest
digit run in the selected radix — and leaves the directive unset exactly
when `parseInt` yields `NaN`; e.g. `max-age=60abc` stores `60`, `max-age=-5`
stores `-5`, `max-age= 60` stores `60`, and `max-age=0x10` stores `16`. -/
theorem c10_amended_parseint_semantics :
    (∀ (k : CCDirective) (rv : String) (cc : CacheControl),
      directiveKind k = .num → jsToLower rv = rv → '=' ∉ rv.data →
      applyPart cc (directiveName k ++ "=" ++ rv) k =
        (match jsParseInt rv with
         | some v => some (DirVal.n v)
         | none => cc k)) ∧
    CacheControl.parse "max-age=60abc" .maxAge = some (.n 60) ∧
    CacheControl.parse "max-age=-5" .maxAge = some (.n (-5)) ∧
    CacheControl.parse "max-age= 60" .maxAge = some (.n 60) ∧
    CacheControl.parse "max-age=0x10" .maxAge = some (.n 16) := by
  refine ⟨?_, by decide, by decide, by decide, by decide⟩
  intro k rv cc hk hlow hne
  rw [applyPart_num_token hk hlow hne cc]
  cases jsParseInt rv
  · rfl
  · show setDir cc k _ k = _
    unfold setDir
    rw [if_pos rfl]

theorem c10_witness :
    (directiveKind CCDirective.maxAge = .num) ∧
    (jsToLower "60abc" = "60abc") ∧
    ('=' ∉ ("60abc" : String).data) ∧
    applyPart emptyCC (directiveName .maxAge ++ "=" ++ "60abc") .maxAge =
      (match jsParseInt "60abc" with
       | some v => some (DirVal.n v)
       | none => emptyCC .maxAge) :=
  ⟨by decide, by decide, by decide,
   c10_amended_parseint_semantics.1 .maxAge "60abc" emptyCC (by decide)
     (by decide) (by decide)⟩

/-!
## Lemmas about the per-header `CDNCache` controller
-/

theorem appendToResponseHeaders_self (out : HeaderMap) (t d : String)
    (v : Option String) :
    appendToResponseHeaders out t d v t =
      some (appendedSlot (out t) (mkItem d v)) := by
  simp only [appendToResponseHeaders, appendedSlot, mkItem]
  cases out t with
  | none => simp [updateHeader]
  | some existing => by_cases he : existing = "" <;> simp [he, updateHeader]

theorem appendToResponseHeaders_other {out : HeaderMap} {t : String}
    (d : String) (v : Option String) {x : String} (hx : x ≠ t) :
    appendToResponseHeaders out t d v x = out x := by
  simp only [appendToResponseHeaders]
  cases out t with
  | none => simp [updateHeader, hx]
  | some existing =>
    by_cases he : existing = "" <;> simp [he, updateHeader, hx]

theorem jsNumToString_ne_empty (v : Int) : jsNumToString v ≠ "" := by
  unfold jsNumToString
  split
  · intro h
    have := congrArg String.data h
    simp at this
  · intro h
    have := congrArg String.data h
    rw [data_mk] at this
    exact natToChars_ne_nil _ (by simpa using this)

theorem mkItem_num (d : String) (v : Int) :
    mkItem d (some (jsNumToString v)) = d ++ "=" ++ jsNumToString v := by
  show (if jsNumToString v = "" then d else d ++ "=" ++ jsNumToString v) = _
  rw [if_neg (jsNumToString_ne_empty v)]

/-- A fold whose step never writes the slot `h` leaves that slot unchanged. -/
theorem foldl_slot_const {f : HeaderMap → String → HeaderMap} {h : String} :
    ∀ ts : List String, (∀ o t, t ∈ ts → f o t h = o h) →
    ∀ out, (ts.foldl f out) h = out h := by
  intro ts
  induction ts with
  | nil => intro _ out; rfl
  | cons t ts ih =>
    intro hf out
    rw [List.foldl_cons, ih (fun o t' ht' => hf o t' (by simp [ht'])) (f out t),
      hf out t (by simp)]

/-- A fold whose step writes the slot `h` only at `h` itself, which occurs
exactly once in the target list, applies that single write. -/
theorem foldl_slot_once {f : HeaderMap → String → HeaderMap} {h : String}
    (g : Option String → Option String) :
    ∀ ts : List String, ts.count h = 1 →
    (∀ o t, t ∈ ts → t ≠ h → f o t h = o h) →
    (∀ o, f o h h = g (o h)) →
    ∀ out, (ts.foldl f out) h = g (out h) := by
  intro ts
  induction ts with
  | nil => intro hc; simp at hc
  | cons t ts ih =>
    intro hc hother hself out
    rw [List.foldl_cons]
    by_cases hth : t = h
    · subst hth
      have hzero : ts.count t = 0 := by
        rw [List.count_cons] at hc
        simp at hc
        omega
      have hnot : t ∉ ts := List.count_eq_zero.mp hzero
      rw [foldl_slot_const ts
          (fun o t' ht' => hother o t' (by simp [ht'])
            (fun he => hnot (he ▸ ht'))) (f out t),
        hself out]
    · have hc' : ts.count h = 1 := by
        rw [List.count_cons, if_neg (by simp [hth])] at hc
        simpa using hc
      rw [ih hc' (fun o t' ht' => hother o t' (by simp [ht'])) hself (f out t),
        hother out t (by simp) hth]

/-- Every suppressible operation leaves the slot of a header whose request
directives contain `no-store` unchanged: each operation's per-target loop
checks `no-store` first and skips, and writes for other targets touch only
their own slots. -/
theorem suppressed_slot_unchanged (c : CDNCache) (out : HeaderMap)
    (target : Target) (op : SuppressibleOp) (h : String)
    (hns : dirHas c h "no-store" = true) :
    applySuppressibleOp c out target op h = out h := by
  cases op
  all_goals
    simp only [applySuppressibleOp, setMaxAge, setSMaxAge, setNoCache,
      setMustRevalidate, setProxyRevalidate, setMustUnderstand, setPrivate,
      setPublic, setImmutable, setStaleWhileRevalidate, setStaleIfError]
    refine foldl_slot_const _ (fun o t ht => ?_) out
    by_cases hth : t = h
    · subst hth
      rw [if_pos hns]
    · split_ifs <;> first
        | rfl
        | exact appendToResponseHeaders_other _ _ (Ne.symm hth)

/-!
## Claims about the `CDNCache` controllers (C1–C5, C9)
-/

/-- C1: for every header whose parsed request-side directive set contains
`no-store`, every suppressible mutation operation (setMaxAge, setSMaxAge,
setNoCache, setMustRevalidate, setProxyRevalidate, setMustUnderstand,
setPrivate, setPublic, setImmutable, setStaleWhileRevalidate,
setStaleIfError) leaves that header's outbound slot completely unchanged.
No error can be raised: the embedding is total, as is the source
(suppression is an early `continue`, never a `throw`). -/
theorem c1_no_store_suppresses (cfg : List String) (request out : HeaderMap)
    (target : Target) (op : SuppressibleOp) (h : String)
    (hns : dirHas (mkCDNCache cfg request) h "no-store" = true) :
    applySuppressibleOp (mkCDNCache cfg request) out target op h = out h :=
  suppressed_slot_unchanged (mkCDNCache cfg request) out target op h hns

theorem c1_witness :
    dirHas (mkCDNCache ["Cache-Control"] reqNoStore) "cache-control"
      "no-store" = true ∧
    applySuppressibleOp (mkCDNCache ["Cache-Control"] reqNoStore)
      emptyHeaders .noTarget (.maxAge 60) "cache-control" =
      emptyHeaders "cache-control" :=
  ⟨by decide,
   c1_no_store_suppresses ["Cache-Control"] reqNoStore emptyHeaders
     .noTarget (.maxAge 60) "cache-control" (by decide)⟩

/-- C2: for a header whose request directives contain `private` (and not
`no-store`), `setSMaxAge`, `setProxyRevalidate`, and `setPublic` leave its
outbound slot unchanged while `setMaxAge` still appends its `max-age=N`
token; symmetrically, with `public` requested (and not `no-store`),
`setPrivate` leaves the slot unchanged. -/
theorem c2_private_public_suppression (cfg : List String)
    (request out : HeaderMap) (target : Target) (h : String) (v : Int) :
    (dirHas (mkCDNCache cfg request) h "private" = true →
      dirHas (mkCDNCache cfg request) h "no-store" = false →
      setSMaxAge (mkCDNCache cfg request) out target v h = out h ∧
      setProxyRevalidate (mkCDNCache cfg request) out target h = out h ∧
      setPublic (mkCDNCache cfg request) out target h = out h ∧
      ((getTargetCacheControlHeaders (mkCDNCache cfg request) target).count h
          = 1 →
        setMaxAge (mkCDNCache cfg request) out target v h =
          some (appendedSlot (out h) ("max-age" ++ "=" ++ jsNumToString v)))) ∧
    (dirHas (mkCDNCache cfg request) h "public" = true →
      dirHas (mkCDNCache cfg request) h "no-store" = false →
      setPrivate (mkCDNCache cfg request) out target h = out h) := by
  constructor
  · intro hpriv hns
    refine ⟨?_, ?_, ?_, ?_⟩
    · refine foldl_slot_const _ (fun o t ht => ?_) out
      by_cases hth : t = h
      · subst hth
        split_ifs <;> rfl
      · split_ifs <;> first
          | rfl
          | exact appendToResponseHeaders_other _ _ (Ne.symm hth)
    · refine foldl_slot_const _ (fun o t ht => ?_) out
      by_cases hth : t = h
      · subst hth
        split_ifs <;> rfl
      · split_ifs <;> first
          | rfl
          | exact appendToResponseHeaders_other _ _ (Ne.symm hth)
    · refine foldl_slot_const _ (fun o t ht => ?_) out
      by_cases hth : t = h
      · subst hth
        split_ifs <;> rfl
      · split_ifs <;> first
          | rfl
          | exact appendToResponseHeaders_other _ _ (Ne.symm hth)
    · intro hcount
      refine foldl_slot_once
        (fun old =>
          some (appendedSlot old ("max-age" ++ "=" ++ jsNumToString v)))
        _ hcount (fun o t ht hth => ?_) (fun o => ?_) out
      · split_ifs <;> first
          | rfl
          | exact appendToResponseHeaders_other _ _ (Ne.symm hth)
      · rw [if_neg (by simp [hns]), appendToResponseHeaders_self,
          mkItem_num]
  · intro hpub hns
    refine foldl_slot_const _ (fun o t ht => ?_) out
    by_cases hth : t = h
    · subst hth
      split_ifs <;> rfl
    · split_ifs <;> first
        | rfl
        | exact appendToResponseHeaders_other _ _ (Ne.symm hth)

theorem c2_witness :
    dirHas (mkCDNCache ["Cache-Control"] reqPrivate) "cache-control"
      "private" = true ∧
    dirHas (mkCDNCache ["Cache-Control"] reqPrivate) "cache-control"
      "no-store" = false ∧
    (getTargetCacheControlHeaders (mkCDNCache ["Cache-Control"] reqPrivate)
      .noTarget).count "cache-control" = 1 ∧
    setSMaxAge (mkCDNCache ["Cache-Control"] reqPrivate) emptyHeaders
      .noTarget 60 "cache-control" = emptyHeaders "cache-control" ∧
    setMaxAge (mkCDNCache ["Cache-Control"] reqPrivate) emptyHeaders
      .noTarget 60 "cache-control" =
      some (appendedSlot (emptyHeaders "cache-control")
        ("max-age" ++ "=" ++ jsNumToString 60)) := by
  have hmain := (c2_private_public_suppression ["Cache-Control"] reqPrivate
    emptyHeaders .noTarget "cache-control" 60).1 (by decide) (by decide)
  exact ⟨by decide, by decide, by decide, hmain.1, hmain.2.2.2 (by decide)⟩

/-- C3 counterexample: in the legacy `CDNCache` variant of `src/CDNCache.ts`
the mutation operations consult one merged set, the union of every configured
header's inbound directives, not the target header's own set.  With
`CDN-Cache-Control: no-store` and `Cache-Control: public` inbound, header
`cache-control`'s own parsed directive set does not contain `no-store`, yet
the legacy `setMaxAge` leaves `cache-control`'s outbound slot empty instead
of appending `max-age=60`. -/
theorem c3_counterexample :
    (parseCacheControlDirectives "public").contains "no-store" = false ∧
    (parseCacheControlDirectives "no-store").contains "no-store" = true ∧
    (legacyRequestDirectives legacyCfg legacyRequest).contains "no-store"
      = true ∧
    legacySetMaxAge legacyCfg legacyRequest emptyHeaders 60 "cache-control"
      = none := by
  decide

/-- C3 (amended): in the per-header `CDNCache` variant, suppression is
decided solely by each resolved target's own parsed request-side directive
set: when header `hA`'s inbound value contains `no-store` and header `hB`'s
does not, a no-target `setMaxAge` appends `max-age` to `hB`'s outbound slot
and leaves `hA`'s untouched.  The legacy variant in `src/CDNCache.ts`
instead merges all configured headers' inbound directives into one union
set, so there a `no-store` received on any configured header suppresses the
mutation for all of them (see the counterexample). -/
theorem c3_amended_per_header (cfg : List String) (request out : HeaderMap)
    (v : Int) (hA hB : String)
    (hAns : dirHas (mkCDNCache cfg request) hA "no-store" = true)
    (hBns : dirHas (mkCDNCache cfg request) hB "no-store" = false)
    (hcount : (getTargetCacheControlHeaders (mkCDNCache cfg request)
      .noTarget).count hB = 1) :
    setMaxAge (mkCDNCache cfg request) out .noTarget v hB =
      some (appendedSlot (out hB) ("max-age" ++ "=" ++ jsNumToString v)) ∧
    setMaxAge (mkCDNCache cfg request) out .noTarget v hA = out hA := by
  constructor
  · refine foldl_slot_once
      (fun old =>
        some (appendedSlot old ("max-age" ++ "=" ++ jsNumToString v)))
      _ hcount (fun o t ht hth => ?_) (fun o => ?_) out
    · split_ifs <;> first
        | rfl
        | exact appendToResponseHeaders_other _ _ (Ne.symm hth)
    · rw [if_neg (by simp [hBns]), appendToResponseHeaders_self, mkItem_num]
  · refine foldl_slot_const _ (fun o t ht => ?_) out
    by_cases hth : t = hA
    · subst hth
      rw [if_pos hAns]
    · split_ifs <;> first
        | rfl
        | exact appendToResponseHeaders_other _ _ (Ne.symm hth)

theorem c3_witness :
    dirHas (mkCDNCache legacyCfg legacyRequest) "cdn-cache-control"
      "no-store" = true ∧
    dirHas (mkCDNCache legacyCfg legacyRequest) "cache-control"
      "no-store" = false ∧
    (getTargetCacheControlHeaders (mkCDNCache legacyCfg legacyRequest)
      .noTarget).count "cache-control" = 1 ∧
    setMaxAge (mkCDNCache legacyCfg legacyRequest) emptyHeaders .noTarget 60
        "cache-control" =
      some (appendedSlot (emptyHeaders "cache-control")
        ("max-age" ++ "=" ++ jsNumToString 60)) ∧
    setMaxAge (mkCDNCache legacyCfg legacyRequest) emptyHeaders .noTarget 60
      "cdn-cache-control" = emptyHeaders "cdn-cache-control" := by
  have hmain := c3_amended_per_header legacyCfg legacyRequest emptyHeaders
    60 "cdn-cache-control" "cache-control" (by decide) (by decide) (by decide)
  exact ⟨by decide, by decide, by decide, hmain.1, hmain.2⟩

/-- C4: `setNoStore` and `setNoTransform` are never suppressed: whatever the
request-side directive sets hold (including `no-store` itself), they append
their token to every resolved target's outbound slot. -/
theorem c4_never_suppressed (cfg : List String) (request out : HeaderMap)
    (target : Target) (h : String)
    (hcount : (getTargetCacheControlHeaders (mkCDNCache cfg request)
      target).count h = 1) :
    setNoStore (mkCDNCache cfg request) out target h =
      some (appendedSlot (out h) "no-store") ∧
    setNoTransform (mkCDNCache cfg request) out target h =
      some (appendedSlot (out h) "no-transform") := by
  constructor
  · refine foldl_slot_once (fun old => some (appendedSlot old "no-store"))
      _ hcount (fun o t ht hth => ?_) (fun o => ?_) out
    · exact appendToResponseHeaders_other _ _ (Ne.symm hth)
    · exact appendToResponseHeaders_self o h "no-store" none
  · refine foldl_slot_once (fun old => some (appendedSlot old "no-transform"))
      _ hcount (fun o t ht hth => ?_) (fun o => ?_) out
    · exact appendToResponseHeaders_other _ _ (Ne.symm hth)
    · exact appendToResponseHeaders_self o h "no-transform" none

theorem c4_witness :
    (getTargetCacheControlHeaders (mkCDNCache ["Cache-Control"] reqNoStore)
      .noTarget).count "cache-control" = 1 ∧
    dirHas (mkCDNCache ["Cache-Control"] reqNoStore) "cache-control"
      "no-store" = true ∧
    setNoStore (mkCDNCache ["Cache-Control"] reqNoStore) emptyHeaders
      .noTarget "cache-control" =
      some (appendedSlot (emptyHeaders "cache-control") "no-store") := by
  have hmain := c4_never_suppressed ["Cache-Control"] reqNoStore
    emptyHeaders .noTarget "cache-control" (by decide)
  exact ⟨by decide, by decide, hmain.1⟩

/-- C5: one append sets the outbound slot to the item verbatim when the slot
is empty (absent, or holding the falsy empty string) and otherwise appends
`", "` followed by the item, so tokens accumulate in call order; starting
from no inbound header and empty outbound headers, `setPublic()` then
`setSMaxAge(120)` then `setMaxAge(60)` on a controller for `Cache-Control`
leaves that slot holding exactly `"public, s-maxage=120, max-age=60"`. -/
theorem c5_append_accumulates :
    (∀ (out : HeaderMap) (t directive : String) (value : Option String),
      appendToResponseHeaders out t directive value t =
        some (appendedSlot (out t) (mkItem directive value))) ∧
    (∀ item : String, appendedSlot none item = item) ∧
    (∀ item : String, appendedSlot (some "") item = item) ∧
    (∀ s item : String, s ≠ "" →
      appendedSlot (some s) item = s ++ ", " ++ item) ∧
    (setMaxAge (mkCDNCache ["Cache-Control"] emptyHeaders)
      (setSMaxAge (mkCDNCache ["Cache-Control"] emptyHeaders)
        (setPublic (mkCDNCache ["Cache-Control"] emptyHeaders) emptyHeaders
          .noTarget)
        .noTarget 120)
      .noTarget 60) "cache-control" =
      some "public, s-maxage=120, max-age=60" := by
  refine ⟨appendToResponseHeaders_self, fun item => rfl, fun item => rfl,
    fun s item hs => ?_, by decide⟩
  show (if s = "" then item else s ++ ", " ++ item) = _
  rw [if_neg hs]

theorem c5_witness :
    (("public" : String) ≠ "") ∧
    appendedSlot (some "public") "s-maxage=120" =
      "public" ++ ", " ++ "s-maxage=120" :=
  ⟨by decide, c5_append_accumulates.2.2.2.1 "public" "s-maxage=120"
    (by decide)⟩

/-- C9: a mutation with no target resolves to all configured headers in
order and is applied to each independently: with two configured header
names (distinct after lower-casing) and no suppressing inbound directives,
a no-target `setPublic` appends `public` to both outbound slots. -/
theorem c9_no_target_hits_all (n1 n2 : String) (request out : HeaderMap)
    (hdiff : jsToLower n1 ≠ jsToLower n2)
    (h1ns : dirHas (mkCDNCache [n1, n2] request) (jsToLower n1) "no-store"
      = false)
    (h1p : dirHas (mkCDNCache [n1, n2] request) (jsToLower n1) "private"
      = false)
    (h2ns : dirHas (mkCDNCache [n1, n2] request) (jsToLower n2) "no-store"
      = false)
    (h2p : dirHas (mkCDNCache [n1, n2] request) (jsToLower n2) "private"
      = false) :
    setPublic (mkCDNCache [n1, n2] request) out .noTarget (jsToLower n1) =
      some (appendedSlot (out (jsToLower n1)) "public") ∧
    setPublic (mkCDNCache [n1, n2] request) out .noTarget (jsToLower n2) =
      some (appendedSlot (out (jsToLower n2)) "public") := by
  have hres : getTargetCacheControlHeaders (mkCDNCache [n1, n2] request)
      .noTarget = [jsToLower n1, jsToLower n2] := rfl
  have hc1 : [jsToLower n1, jsToLower n2].count (jsToLower n1) = 1 := by
    simp [List.count_cons, Ne.symm hdiff]
  have hc2 : [jsToLower n1, jsToLower n2].count (jsToLower n2) = 1 := by
    simp [List.count_cons, hdiff]
  constructor
  · refine foldl_slot_once (fun old => some (appendedSlot old "public"))
      _ hc1 (fun o t ht hth => ?_) (fun o => ?_) out
    · split_ifs <;> first
        | rfl
        | exact appendToResponseHeaders_other _ _ (Ne.symm hth)
    · rw [if_neg (by simp [h1ns]), if_neg (by simp [h1p])]
      exact appendToResponseHeaders_self o (jsToLower n1) "public" none
  · refine foldl_slot_once (fun old => some (appendedSlot old "public"))
      _ hc2 (fun o t ht hth => ?_) (fun o => ?_) out
    · split_ifs <;> first
        | rfl
        | exact appendToResponseHeaders_other _ _ (Ne.symm hth)
    · rw [if_neg (by simp [h2ns]), if_neg (by simp [h2p])]
      exact appendToResponseHeaders_self o (jsToLower n2) "public" none

theorem c9_witness :
    (jsToLower "Cache-Control" ≠ jsToLower "CDN-Cache-Control") ∧
    setPublic (mkCDNCache ["Cache-Control", "CDN-Cache-Control"]
        emptyHeaders) emptyHeaders .noTarget (jsToLower "Cache-Control") =
      some (appendedSlot (emptyHeaders (jsToLower "Cache-Control"))
        "public") ∧
    setPublic (mkCDNCache ["Cache-Control", "CDN-Cache-Control"]
        emptyHeaders) emptyHeaders .noTarget
        (jsToLower "CDN-Cache-Control") =
      some (appendedSlot (emptyHeaders (jsToLower "CDN-Cache-Control"))
        "public") := by
  have hmain := c9_no_target_hits_all "Cache-Control" "CDN-Cache-Control"
    emptyHeaders emptyHeaders (by decide) (by decide) (by decide) (by decide)
    (by decide)
  exact ⟨by decide, hmain.1, hmain.2⟩

end CdnCacheSpec
